import Mathlib

/-!
Verification development for the dock-docs repository.

The analysis aggregator (package analysis: AnalyzeImage, mergeStats, the
severity rank table) and the tool-adapter parse functions (package runner:
parseRuntimeInspect, parseGrypeOutput, parseSyftOutput, parseManifestInspect)
are embedded shallowly from the Go source.  Go strings are modelled as lists
of characters (Lean's built-in String operations do not reduce inside the
kernel, lists of characters do); Go float64 is modelled as Rat, since the
aggregator only copies efficiency values and compares them with zero; a Go
map from string to int is modelled as an association list whose keys are
unique, with lookup returning the zero value 0 for absent keys, exactly as a
Go map does.  Fallible Go functions returning (value, error) pairs are
embedded as Except values.  Concurrency in AnalyzeImage is embedded by its
observable merge behaviour: the merge step is serialized behind a mutex, so
the aggregation is a fold of mergeStats over the adapter outcomes in
completion order, followed by the final deterministic sort; theorems
quantify over all orders by quantifying over the outcome list.
-/

deriving instance DecidableEq for Except

namespace DockDocs

/-- Go strings as character lists. -/
abbrev Str : Type := List Char

/-- Conversion from Lean string literals to the Str model. -/
def str (s : String) : Str := s.data

/-- Package analysis, stats.go: PackageSummary. -/
structure PackageSummary where
  name : Str
  version : Str
deriving DecidableEq, Repr

/-- Package analysis, stats.go: Vulnerability. -/
structure Vulnerability where
  id : Str
  severity : Str
  package : Str
  version : Str
deriving DecidableEq, Repr

/-- Package analysis, stats.go: ImageStats.  VulnSummary (a Go map from
string to int) is an association list with unique keys. -/
structure ImageStats where
  imageTag : Str
  architecture : Str
  os : Str
  sizeMB : Str
  totalLayers : Int
  efficiency : Rat
  wastedBytes : Str
  totalPackages : Int
  packages : List PackageSummary
  vulnerabilities : List Vulnerability
  vulnSummary : List (Str × Nat)
deriving DecidableEq, Repr

/-- Lookup in a Go map modelled as an association list: absent keys give
the zero value, as in Go. -/
def lookupCount (m : List (Str × Nat)) (k : Str) : Nat :=
  match m.find? (fun p => p.1 = k) with
  | some p => p.2
  | none => 0

/-- Go map increment m[k] += v: update the entry for k, or create it. -/
def addCount (m : List (Str × Nat)) (k : Str) (v : Nat) : List (Str × Nat) :=
  match m with
  | [] => [(k, v)]
  | p :: rest => if p.1 = k then (p.1, p.2 + v) :: rest else p :: addCount rest k v

/-- The VulnSummary merge loop in mergeStats: for k, v := range src, dest[k] += v. -/
def mergeSummary (dest src : List (Str × Nat)) : List (Str × Nat) :=
  src.foldl (fun d p => addCount d p.1 p.2) dest

/-- The severityRank map literal in AnalyzeImage. -/
def severityRankMap : List (Str × Nat) :=
  [(str "Critical", 4), (str "High", 3), (str "Medium", 2), (str "Low", 1), (str "Unknown", 0)]

/-- Rank of a severity string: Go map lookup, zero for unrecognized keys. -/
def severityRank (s : Str) : Nat := lookupCount severityRankMap s

/-- The less function passed to sort.Slice over Vulnerabilities in AnalyzeImage. -/
def vulnLess (a b : Vulnerability) : Bool :=
  if severityRank a.severity ≠ severityRank b.severity then
    decide (severityRank a.severity > severityRank b.severity)
  else decide (a.id < b.id)

/-- The non-strict total preorder induced by vulnLess: a list is sorted in the
sense guaranteed by sort.Slice exactly when it is pairwise ordered by this
relation (vulnLE a b holds iff vulnLess b a is false). -/
def vulnLE (a b : Vulnerability) : Prop :=
  severityRank a.severity > severityRank b.severity ∨
    (severityRank a.severity = severityRank b.severity ∧ a.id ≤ b.id)

instance : DecidableRel vulnLE := fun a b => by unfold vulnLE; infer_instance

instance : IsTotal Vulnerability vulnLE where
  total a b := by
    unfold vulnLE
    rcases Nat.lt_trichotomy (severityRank a.severity) (severityRank b.severity) with h | h | h
    · right; left; omega
    · rcases le_total a.id b.id with h2 | h2
      · left; right; exact ⟨h, h2⟩
      · right; right; exact ⟨h.symm, h2⟩
    · left; left; omega

instance : IsTrans Vulnerability vulnLE where
  trans a b c hab hbc := by
    unfold vulnLE at *
    rcases hab with h1 | ⟨h1, h1'⟩ <;> rcases hbc with h2 | ⟨h2, h2'⟩
    · left; omega
    · left; omega
    · left; omega
    · right; exact ⟨h1.trans h2, h1'.trans h2'⟩

/-- The final sort.Slice call in AnalyzeImage.  sort.Slice guarantees a
permutation of the input that is pairwise ordered by the comparator; that
contract is embedded as an insertion sort with respect to vulnLE. -/
def sortVulnerabilities (l : List Vulnerability) : List Vulnerability :=
  List.insertionSort vulnLE l

/-- The destination ImageStats allocated at the top of AnalyzeImage:
zero-valued except the image tag, with empty containers. -/
def initialStats (image : Str) : ImageStats :=
  { imageTag := image, architecture := [], os := [], sizeMB := [], totalLayers := 0,
    efficiency := 0, wastedBytes := [], totalPackages := 0,
    packages := [], vulnerabilities := [], vulnSummary := [] }

/-- mergeStats from the analysis package.  Each Go if statement guards a
write to one distinct field of dest, so the sequence of in-place writes is
embedded as a single record construction with one conditional per field. -/
def mergeStats (dest : ImageStats) (src : Option ImageStats) : ImageStats :=
  match src with
  | none => dest
  | some s =>
    { imageTag := dest.imageTag
      architecture := if s.architecture ≠ [] then s.architecture else dest.architecture
      os := if s.os ≠ [] then s.os else dest.os
      sizeMB := if s.sizeMB ≠ [] then s.sizeMB else dest.sizeMB
      totalLayers := if s.totalLayers ≠ 0 then s.totalLayers else dest.totalLayers
      efficiency := if s.efficiency ≠ 0 then s.efficiency else dest.efficiency
      wastedBytes := if s.wastedBytes ≠ [] then s.wastedBytes else dest.wastedBytes
      totalPackages := if s.totalPackages ≠ 0 then s.totalPackages else dest.totalPackages
      packages := if s.packages.length > 0 then dest.packages ++ s.packages else dest.packages
      vulnerabilities :=
        if s.vulnerabilities.length > 0 then dest.vulnerabilities ++ s.vulnerabilities
        else dest.vulnerabilities
      vulnSummary :=
        if s.vulnSummary.length > 0 then mergeSummary dest.vulnSummary s.vulnSummary
        else dest.vulnSummary }

/-- Observable behaviour of one registered Runner during a call to
AnalyzeImage: skipped because IsAvailable returned false, Run returned an
error, or Run returned a (possibly nil) ImageStats pointer with nil error. -/
inductive RunnerOutcome where
  | unavailable
  | runError
  | runOk (stats : Option ImageStats)
deriving DecidableEq, Repr

/-- One step of the aggregation: unavailable runners are skipped, Run errors
are collected as warnings and contribute nothing, successful results are
merged into the destination under the mutex. -/
def mergeOutcome (acc : ImageStats) (r : RunnerOutcome) : ImageStats :=
  match r with
  | .runOk stats => mergeStats acc stats
  | _ => acc

/-- AnalyzeImage from the analysis package: empty image tag is the only
error; otherwise every successful runner result is merged into the
destination and the vulnerability list is sorted at the end. -/
def AnalyzeImage (image : Str) (runners : List RunnerOutcome) : Except Str ImageStats :=
  if image = [] then Except.error (str "image tag is required")
  else
    let finalStats := runners.foldl mergeOutcome (initialStats image)
    Except.ok { finalStats with vulnerabilities := sortVulnerabilities finalStats.vulnerabilities }

/-- Selects the outcomes whose Run call returned without error. -/
def isRunOk : RunnerOutcome → Bool
  | .runOk _ => true
  | _ => false

/-- The (possibly nil) stats pointers returned by the successful runners,
in completion order. -/
def successStats (runners : List RunnerOutcome) : List (Option ImageStats) :=
  runners.filterMap (fun r =>
    match r with
    | .runOk s => some s
    | _ => none)

/-- The non-empty package lists supplied by successful runners, in
completion order; these are exactly the lists mergeStats appends. -/
def packagesContributions (runners : List RunnerOutcome) : List (List PackageSummary) :=
  (successStats runners).filterMap (fun s =>
    match s with
    | some st => if st.packages.length > 0 then some st.packages else none
    | none => none)

/-- Number of vulnerabilities carrying exactly the raw severity token s. -/
def countSeverity (l : List Vulnerability) (s : Str) : Nat :=
  (l.filter (fun v => v.severity = s)).length

/-- Internal consistency of one partial result, as every adapter produces
it: the summary is a well-formed map (unique keys) and counts the
vulnerability list grouped by raw severity token. -/
def summaryInvariant (st : ImageStats) : Prop :=
  (st.vulnSummary.map Prod.fst).Nodup ∧
    ∀ s, lookupCount st.vulnSummary s = countSeverity st.vulnerabilities s

/-- Modelled from the spec: the types package (types.ImageStats) is not part
of the provided sources; its fields are reconstructed from the uses in the
runner package and the data model in the spec.  Unset fields carry the Go
zero value, as in a Go struct literal. -/
structure TImageStats where
  imageTag : Str := []
  architecture : Str := []
  os : Str := []
  sizeBytes : Int := 0
  totalLayers : Nat := 0
  osDistro : Str := []
  totalPackages : Nat := 0
  packages : List PackageSummary := []
  vulnerabilities : List Vulnerability := []
  vulnSummary : List (Str × Nat) := []
  vulnScanTime : Str := []
  supportedArchitectures : List Str := []
deriving DecidableEq, Repr

/-- One element of the JSON array expected by parseRuntimeInspect. -/
structure InspectEntry where
  architecture : Str
  os : Str
  size : Int
  rootfsLayers : List Str
deriving DecidableEq, Repr

/-- parseRuntimeInspect from runtime.go.  JSON decoding is external; the
input is the decoded array, or none when unmarshalling failed. -/
def parseRuntimeInspect (decoded : Option (List InspectEntry)) (image binary : Str) :
    Except Str TImageStats :=
  match decoded with
  | none => Except.error (str "failed to unmarshal " ++ binary ++ str " inspect output")
  | some [] => Except.error (str "no inspect data returned for image " ++ image)
  | some (data :: _) =>
    Except.ok { imageTag := image, architecture := data.architecture, os := data.os,
                sizeBytes := data.size, totalLayers := data.rootfsLayers.length }

/-- One element of the matches array expected by parseGrypeOutput. -/
structure GrypeMatch where
  vulnId : Str
  vulnSeverity : Str
  artifactName : Str
  artifactVersion : Str
deriving DecidableEq, Repr

/-- The JSON document shape expected by parseGrypeOutput.  The Go field is
named Matches; matches is a reserved word in Lean, hence grypeMatches. -/
structure GrypeDoc where
  descriptorTimestamp : Str
  grypeMatches : List GrypeMatch
deriving DecidableEq, Repr

/-- Modelled from the spec: types.SortBySeverity (package types, not in the
provided sources) sorts a vulnerability list by the severity-rank descending
then id ascending rule fixed in the spec, the same ordering AnalyzeImage
applies. -/
def SortBySeverity (l : List Vulnerability) : List Vulnerability :=
  sortVulnerabilities l

/-- The loop body of parseGrypeOutput: count the raw severity token and
append the vulnerability entry. -/
def grypeAccumulate (acc : List (Str × Nat) × List Vulnerability) (m : GrypeMatch) :
    List (Str × Nat) × List Vulnerability :=
  (addCount acc.1 m.vulnSeverity 1,
   acc.2 ++ [{ id := m.vulnId, severity := m.vulnSeverity,
               package := m.artifactName, version := m.artifactVersion }])

/-- parseGrypeOutput from grype.go.  JSON decoding and RFC3339 timestamp
parsing are external; parseRFC3339 returns none on a parse failure, in which
case the current time now is kept, as in the Go code. -/
def parseGrypeOutput (decoded : Option GrypeDoc) (parseRFC3339 : Str → Option Str)
    (now : Str) : Except Str TImageStats :=
  match decoded with
  | none => Except.error (str "failed to unmarshal grype output")
  | some doc =>
    let scanTime :=
      if doc.descriptorTimestamp ≠ [] then
        match parseRFC3339 doc.descriptorTimestamp with
        | some t => t
        | none => now
      else now
    let acc := doc.grypeMatches.foldl grypeAccumulate ([], [])
    Except.ok { vulnSummary := acc.1, vulnerabilities := SortBySeverity acc.2,
                vulnScanTime := scanTime }

/-- One element of the artifacts array expected by parseSyftOutput. -/
structure SyftArtifact where
  name : Str
  version : Str
  typ : Str
deriving DecidableEq, Repr

/-- The JSON document shape expected by parseSyftOutput. -/
structure SyftDoc where
  distroName : Str
  distroVersion : Str
  artifacts : List SyftArtifact
deriving DecidableEq, Repr

/-- The deduplication key used by parseSyftOutput: name at version. -/
def pkgKey (p : PackageSummary) : Str := p.name ++ str "@" ++ p.version

/-- One step of the syft dedup loop: acc.1 is the seen key set (a Go map
used as a set, modelled as the list of inserted keys), acc.2 the kept
packages. -/
def dedupStep (acc : List Str × List PackageSummary) (a : SyftArtifact) :
    List Str × List PackageSummary :=
  let key := a.name ++ str "@" ++ a.version
  if key ∈ acc.1 then acc
  else (acc.1 ++ [key], acc.2 ++ [{ name := a.name, version := a.version }])

/-- The dedup loop of parseSyftOutput. -/
def dedupArtifacts (arts : List SyftArtifact) : List PackageSummary :=
  (arts.foldl dedupStep ([], [])).2

/-- The non-strict order induced by the sort.Slice comparator in
parseSyftOutput (less is name lexicographically smaller). -/
def pkgLE (a b : PackageSummary) : Prop := a.name ≤ b.name

instance : DecidableRel pkgLE := fun a b => by unfold pkgLE; infer_instance

instance : IsTotal PackageSummary pkgLE where
  total a b := le_total a.name b.name

instance : IsTrans PackageSummary pkgLE where
  trans _ _ _ hab hbc := le_trans hab hbc

/-- parseSyftOutput from syft.go: distro banner, key-based deduplication,
package count after dedup, and a final sort by name (sort.Slice embedded as
insertion sort, as for vulnerabilities). -/
def parseSyftOutput (decoded : Option SyftDoc) : Except Str TImageStats :=
  match decoded with
  | none => Except.error (str "failed to unmarshal syft output")
  | some doc =>
    let osDistro :=
      if doc.distroName ≠ [] then
        if doc.distroVersion ≠ [] then doc.distroName ++ str " " ++ doc.distroVersion
        else doc.distroName
      else []
    let pkgs := dedupArtifacts doc.artifacts
    Except.ok { osDistro := osDistro, totalPackages := pkgs.length,
                packages := List.insertionSort pkgLE pkgs }

/-- The platform object of one manifest entry expected by
parseManifestInspect. -/
structure ManifestEntry where
  platformArchitecture : Str
  platformOS : Str
deriving DecidableEq, Repr

/-- The os-slash-architecture collection loop of parseManifestInspect: the
seen set and the collected list always hold the same keys, so one list
serves as both. -/
def collectArchs (manifests : List ManifestEntry) : List Str :=
  manifests.foldl (fun acc m =>
    let key := m.platformOS ++ str "/" ++ m.platformArchitecture
    if key ∈ acc then acc else acc ++ [key]) []

/-- parseManifestInspect from manifest.go: a manifest list with a non-empty
manifests array yields the sorted distinct os-slash-architecture pairs; any
other decode result (a single-manifest object, which unmarshals into an
index with no manifests, or malformed JSON) yields empty stats and nil
error. -/
def parseManifestInspect (decoded : Option (List ManifestEntry)) (image : Str) :
    Except Str TImageStats :=
  match decoded with
  | some manifests =>
    if manifests.length > 0 then
      Except.ok { imageTag := image,
                  supportedArchitectures :=
                    List.insertionSort (fun a b : Str => a ≤ b) (collectArchs manifests) }
    else Except.ok { imageTag := image }
  | none => Except.ok { imageTag := image }

/-- Modelled from the spec: the Dockerfile annotation parser (package
parser) is not part of the provided sources, only its tests are; the
instruction kinds recognized by the Annotation Resolver. -/
inductive InstrKind where
  | ARG
  | ENV
  | LABEL
  | EXPOSE
deriving DecidableEq, Repr

/-- Modelled from the spec: one parsed Dockerfile instruction as handed to
the Annotation Resolver, with its raw key and value pairs already determined
and the comment lines immediately preceding it. -/
structure Instruction where
  kind : InstrKind
  rawArgs : List (Str × Str)
  precedingComments : List Str
deriving DecidableEq, Repr

/-- Modelled from the spec: one documentation item produced by the
Annotation Resolver. -/
structure DocItem where
  name : Str
  type : InstrKind
  description : Str
  value : Str
  required : Bool
deriving DecidableEq, Repr

/-- Modelled from the spec: the four recognized magic-comment tags. -/
inductive Tag where
  | name
  | description
  | default
  | required
deriving DecidableEq, Repr

/-- Leading and trailing whitespace characters stripped by the magic-comment
syntax. -/
def isWS (c : Char) : Bool := c.toNat = 32 || c.toNat = 9 || c.toNat = 10 || c.toNat = 13

/-- Strip surrounding whitespace from a string. -/
def trimStr (s : Str) : Str := ((s.dropWhile isWS).reverse.dropWhile isWS).reverse

/-- Whether p is a prefix of s. -/
def startsWithStr : (p s : Str) → Bool
  | [], _ => true
  | _ :: _, [] => false
  | p :: ps, c :: cs => p = c && startsWithStr ps cs

/-- Modelled from the spec: recognize a magic-comment line of the form hash,
at-tag, colon, value; the leading hash and the whitespace around the value
are stripped; any other comment line is not a recognized tag. -/
def parseMagicLine (line : Str) : Option (Tag × Str) :=
  let t := trimStr line
  if startsWithStr (str "#") t then
    let rest := trimStr (t.drop 1)
    if startsWithStr (str "@name:") rest then some (Tag.name, trimStr (rest.drop 6))
    else if startsWithStr (str "@description:") rest then
      some (Tag.description, trimStr (rest.drop 13))
    else if startsWithStr (str "@default:") rest then some (Tag.default, trimStr (rest.drop 9))
    else if startsWithStr (str "@required:") rest then some (Tag.required, trimStr (rest.drop 10))
    else none
  else none

/-- Modelled from the spec: the per-tag positional queues of annotation
fragments extracted from the comment block above one instruction. -/
structure AnnotationQueues where
  names : List Str := []
  descriptions : List Str := []
  defaults : List Str := []
  requireds : List Str := []
deriving DecidableEq, Repr

/-- Append one recognized fragment to the queue for its tag type. -/
def queueAdd (q : AnnotationQueues) (tv : Tag × Str) : AnnotationQueues :=
  match tv.1 with
  | .name => { q with names := q.names ++ [tv.2] }
  | .description => { q with descriptions := q.descriptions ++ [tv.2] }
  | .default => { q with defaults := q.defaults ++ [tv.2] }
  | .required => { q with requireds := q.requireds ++ [tv.2] }

/-- Modelled from the spec: scan the comment lines top to bottom, appending
each recognized fragment to the queue for its tag; unrecognized lines are
skipped and consume no queue slot. -/
def extractQueues (comments : List Str) : AnnotationQueues :=
  comments.foldl (fun q line =>
    match parseMagicLine line with
    | some tv => queueAdd q tv
    | none => q) {}

/-- Modelled from the spec: build the DocItem for the pair p at expanded
position m.  Name, description, value and required each consume the fragment
at position m of their queue if present; otherwise name and value fall back
to the instruction-derived key and value, description is empty, required is
false.  The required fragment is true exactly when it reads true. -/
def buildItem (kind : InstrKind) (q : AnnotationQueues) (m : Nat) (p : Str × Str) : DocItem :=
  { name := (q.names.get? m).getD p.1,
    type := kind,
    description := (q.descriptions.get? m).getD [],
    value := (q.defaults.get? m).getD p.2,
    required := decide ((q.requireds.get? m).getD [] = str "true") }

/-- Modelled from the spec: expand one instruction into DocItems, one per
raw pair in left-to-right order, pairing the Mth pair with the Mth fragment
of each queue. -/
def buildItemsFromQueues (kind : InstrKind) (pairs : List (Str × Str))
    (q : AnnotationQueues) : List DocItem :=
  pairs.enum.map (fun mp => buildItem kind q mp.1 mp.2)

/-- Modelled from the spec: resolve one instruction against its preceding
comment block. -/
def resolveInstruction (inst : Instruction) : List DocItem :=
  buildItemsFromQueues inst.kind inst.rawArgs (extractQueues inst.precedingComments)

/-- Modelled from the spec: the Annotation Resolver over the whole flattened
instruction sequence, in source order. -/
def resolveInstructions (insts : List Instruction) : List DocItem :=
  (insts.map resolveInstruction).flatten

/-- Truncation of every annotation queue to the first n fragments; used to
state that fragments beyond the number of expanded items are discarded. -/
def truncateQueues (q : AnnotationQueues) (n : Nat) : AnnotationQueues :=
  { names := q.names.take n, descriptions := q.descriptions.take n,
    defaults := q.defaults.take n, requireds := q.requireds.take n }

/-! Helper lemmas about the aggregation fold. -/

/-- Unavailable and failed runners contribute nothing to the fold. -/
theorem foldl_mergeOutcome_filter (l : List RunnerOutcome) (init : ImageStats) :
    l.foldl mergeOutcome init = (l.filter isRunOk).foldl mergeOutcome init := by
  induction l generalizing init with
  | nil => rfl
  | cons r rest ih =>
    cases r with
    | runOk s => simpa [isRunOk] using ih (mergeStats init s)
    | unavailable => simpa [isRunOk, mergeOutcome] using ih init
    | runError => simpa [isRunOk, mergeOutcome] using ih init

/-- The fold over runner outcomes is the fold of mergeStats over the
successful results only. -/
theorem foldl_mergeOutcome_successes (l : List RunnerOutcome) (init : ImageStats) :
    l.foldl mergeOutcome init = (successStats l).foldl mergeStats init := by
  induction l generalizing init with
  | nil => rfl
  | cons r rest ih =>
    cases r with
    | runOk s => simpa [successStats, mergeOutcome] using ih (mergeStats init s)
    | unavailable => simpa [successStats, mergeOutcome] using ih init
    | runError => simpa [successStats, mergeOutcome] using ih init

/-- C1: AnalyzeImage errors exactly on the empty image tag; otherwise the
result is untouched by unavailable or failing runners and equals the sorted
merge of exactly the successful runner results. -/
theorem analyzeImage_error_iff_empty_tag (image : Str) (runners : List RunnerOutcome) :
    ((∃ e, AnalyzeImage image runners = Except.error e) ↔ image = []) ∧
    AnalyzeImage image runners = AnalyzeImage image (runners.filter isRunOk) ∧
    (image ≠ [] →
      AnalyzeImage image runners =
        Except.ok
          (let merged := (successStats runners).foldl mergeStats (initialStats image)
           { merged with vulnerabilities := sortVulnerabilities merged.vulnerabilities })) := by
  refine ⟨⟨?_, ?_⟩, ?_, ?_⟩
  · rintro ⟨e, he⟩
    by_cases h : image = []
    · exact h
    · simp [AnalyzeImage, h] at he
  · intro h
    exact ⟨str "image tag is required", by simp [AnalyzeImage, h]⟩
  · by_cases h : image = []
    · simp [AnalyzeImage, h]
    · simp only [AnalyzeImage, h, if_false, ite_false]
      rw [foldl_mergeOutcome_filter]
  · intro h
    simp only [AnalyzeImage, h, ite_false]
    rw [foldl_mergeOutcome_successes]

/-- C1 witness: a concrete aggregation with one unavailable runner, one
failing runner, one nil result and two real results. -/
theorem analyzeImage_error_iff_empty_tag_witness :
    AnalyzeImage (str "alpine:3")
        [RunnerOutcome.unavailable, RunnerOutcome.runError,
         RunnerOutcome.runOk (some
           { initialStats [] with
             vulnerabilities := [⟨str "CVE-9", str "Low", str "libz", str "1"⟩,
                                 ⟨str "CVE-2", str "High", str "libx", str "2"⟩],
             vulnSummary := [(str "Low", 1), (str "High", 1)] }),
         RunnerOutcome.runOk (some
           { initialStats [] with
             vulnerabilities := [⟨str "CVE-1", str "Critical", str "liby", str "3"⟩],
             vulnSummary := [(str "Critical", 1)] }),
         RunnerOutcome.runOk none] =
      Except.ok
        { initialStats (str "alpine:3") with
          vulnerabilities := [⟨str "CVE-1", str "Critical", str "liby", str "3"⟩,
                              ⟨str "CVE-2", str "High", str "libx", str "2"⟩,
                              ⟨str "CVE-9", str "Low", str "libz", str "1"⟩],
          vulnSummary := [(str "Low", 1), (str "High", 1), (str "Critical", 1)] } :=
  ((analyzeImage_error_iff_empty_tag (str "alpine:3") _).2.2 (by decide)).trans (by decide)

/-- C10: merging a nil partial result, or a partial result whose scalar
fields are all zero-valued and whose collections are all empty, leaves every
field of the destination unchanged. -/
theorem mergeStats_zero_identity :
    (∀ dest, mergeStats dest none = dest) ∧
    (∀ dest src, src.imageTag = [] → src.architecture = [] → src.os = [] →
      src.sizeMB = [] → src.totalLayers = 0 → src.efficiency = 0 →
      src.wastedBytes = [] → src.totalPackages = 0 → src.packages = [] →
      src.vulnerabilities = [] → src.vulnSummary = [] →
      mergeStats dest (some src) = dest) := by
  refine ⟨fun dest => rfl, ?_⟩
  intro dest src h1 h2 h3 h4 h5 h6 h7 h8 h9 h10 h11
  simp [mergeStats, h2, h3, h4, h5, h6, h7, h8, h9, h10, h11]

/-- C10 witness: merging the all-zero partial into a fully populated
destination. -/
theorem mergeStats_zero_identity_witness :
    mergeStats
        { imageTag := str "img", architecture := str "arm64", os := str "linux",
          sizeMB := str "12 MB", totalLayers := 7, efficiency := 9/2,
          wastedBytes := str "1 kB", totalPackages := 2,
          packages := [⟨str "zlib", str "1"⟩],
          vulnerabilities := [⟨str "CVE-1", str "High", str "zlib", str "1"⟩],
          vulnSummary := [(str "High", 1)] }
        (some (initialStats [])) =
      { imageTag := str "img", architecture := str "arm64", os := str "linux",
        sizeMB := str "12 MB", totalLayers := 7, efficiency := 9/2,
        wastedBytes := str "1 kB", totalPackages := 2,
        packages := [⟨str "zlib", str "1"⟩],
        vulnerabilities := [⟨str "CVE-1", str "High", str "zlib", str "1"⟩],
        vulnSummary := [(str "High", 1)] } :=
  mergeStats_zero_identity.2 _ (initialStats []) rfl rfl rfl rfl rfl rfl rfl rfl rfl rfl rfl

/-- C8: for each of the three strict adapters, undecodable output (and for
runtime inspect also an empty top-level array) yields an error and nothing
else, while schema-conforming output always yields a result. -/
theorem malformed_tool_output_is_error :
    (∀ image binary, ∃ e, parseRuntimeInspect none image binary = Except.error e) ∧
    (∀ image binary, ∃ e, parseRuntimeInspect (some []) image binary = Except.error e) ∧
    (∀ parseRFC3339 now, ∃ e, parseGrypeOutput none parseRFC3339 now = Except.error e) ∧
    (∃ e, parseSyftOutput none = Except.error e) ∧
    (∀ entry rest image binary, ∃ stats,
      parseRuntimeInspect (some (entry :: rest)) image binary = Except.ok stats) ∧
    (∀ doc parseRFC3339 now, ∃ stats,
      parseGrypeOutput (some doc) parseRFC3339 now = Except.ok stats) ∧
    (∀ doc, ∃ stats, parseSyftOutput (some doc) = Except.ok stats) :=
  ⟨fun _ _ => ⟨_, rfl⟩, fun _ _ => ⟨_, rfl⟩, fun _ _ => ⟨_, rfl⟩, ⟨_, rfl⟩,
   fun _ _ _ _ => ⟨_, rfl⟩, fun _ _ _ => ⟨_, rfl⟩, fun _ => ⟨_, rfl⟩⟩

/-- C9: output that is not a manifest list (a single-manifest object
decodes into an index with no manifests; the same branch covers undecodable
output) yields empty stats with no supported-architecture list, and never an
error. -/
theorem manifest_single_object_not_error (image : Str) :
    parseManifestInspect (some []) image = Except.ok { imageTag := image } ∧
    parseManifestInspect none image = Except.ok { imageTag := image } ∧
    ({ imageTag := image } : TImageStats).supportedArchitectures = [] :=
  ⟨rfl, rfl, rfl⟩

/-- C2: every non-error AnalyzeImage result has its vulnerability list
pairwise ordered by severity rank descending then id ascending, under the
fixed rank table, and any severity string outside the table ranks 0. -/
theorem analyzeImage_vulnerabilities_sorted (image : Str) (runners : List RunnerOutcome)
    (stats : ImageStats) (h : AnalyzeImage image runners = Except.ok stats) :
    stats.vulnerabilities.Pairwise
      (fun a b =>
        severityRank a.severity > severityRank b.severity ∨
          (severityRank a.severity = severityRank b.severity ∧ a.id ≤ b.id)) ∧
    severityRank (str "Critical") = 4 ∧ severityRank (str "High") = 3 ∧
    severityRank (str "Medium") = 2 ∧ severityRank (str "Low") = 1 ∧
    severityRank (str "Unknown") = 0 ∧
    (∀ s : Str, s ≠ str "Critical" → s ≠ str "High" → s ≠ str "Medium" → s ≠ str "Low" →
      severityRank s = 0) := by
  refine ⟨?_, by decide, by decide, by decide, by decide, by decide, ?_⟩
  · by_cases himg : image = []
    · simp [AnalyzeImage, himg] at h
    · simp only [AnalyzeImage, himg, ite_false, Except.ok.injEq] at h
      have hs : stats.vulnerabilities =
          sortVulnerabilities (runners.foldl mergeOutcome (initialStats image)).vulnerabilities := by
        rw [← h]
      rw [hs]
      exact List.sorted_insertionSort vulnLE _
  · intro s h1 h2 h3 h4
    have e1 : str "Critical" ≠ s := Ne.symm h1
    have e2 : str "High" ≠ s := Ne.symm h2
    have e3 : str "Medium" ≠ s := Ne.symm h3
    have e4 : str "Low" ≠ s := Ne.symm h4
    unfold severityRank lookupCount severityRankMap
    by_cases h5 : str "Unknown" = s <;> simp [List.find?, e1, e2, e3, e4, h5]

/-- C2 witness: a concrete run whose raw results arrive unsorted and an
unrecognized severity string. -/
theorem analyzeImage_vulnerabilities_sorted_witness :
    ([(⟨str "CVE-1", str "Critical", str "liby", str "3"⟩ : Vulnerability),
      ⟨str "CVE-2", str "High", str "libx", str "2"⟩,
      ⟨str "CVE-9", str "Low", str "libz", str "1"⟩].Pairwise
      (fun a b =>
        severityRank a.severity > severityRank b.severity ∨
          (severityRank a.severity = severityRank b.severity ∧ a.id ≤ b.id))) ∧
    severityRank (str "SOMETHING-ELSE") = 0 :=
  ⟨(analyzeImage_vulnerabilities_sorted (str "alpine:3")
      [RunnerOutcome.runOk (some
         { initialStats [] with
           vulnerabilities := [⟨str "CVE-9", str "Low", str "libz", str "1"⟩,
                               ⟨str "CVE-2", str "High", str "libx", str "2"⟩],
           vulnSummary := [(str "Low", 1), (str "High", 1)] }),
       RunnerOutcome.runOk (some
         { initialStats [] with
           vulnerabilities := [⟨str "CVE-1", str "Critical", str "liby", str "3"⟩],
           vulnSummary := [(str "Critical", 1)] })]
      { initialStats (str "alpine:3") with
        vulnerabilities := [⟨str "CVE-1", str "Critical", str "liby", str "3"⟩,
                            ⟨str "CVE-2", str "High", str "libx", str "2"⟩,
                            ⟨str "CVE-9", str "Low", str "libz", str "1"⟩],
        vulnSummary := [(str "Low", 1), (str "High", 1), (str "Critical", 1)] }
      (by decide)).1,
   (analyzeImage_vulnerabilities_sorted (str "x") [] (initialStats (str "x"))
      (by decide)).2.2.2.2.2.2 (str "SOMETHING-ELSE")
      (by decide) (by decide) (by decide) (by decide)⟩

/-! Helper lemmas about the summary map model. -/

theorem lookupCount_nil (k : Str) : lookupCount [] k = 0 := rfl

theorem lookupCount_cons (a : Str) (b : Nat) (rest : List (Str × Nat)) (k : Str) :
    lookupCount ((a, b) :: rest) k = if a = k then b else lookupCount rest k := by
  by_cases h : a = k
  · simp [lookupCount, List.find?, h]
  · simp only [lookupCount, List.find?, decide_eq_true_eq]
    simp [h]

theorem lookupCount_addCount (m : List (Str × Nat)) (k k' : Str) (v : Nat) :
    lookupCount (addCount m k v) k' = lookupCount m k' + (if k' = k then v else 0) := by
  induction m with
  | nil =>
    rw [show addCount [] k v = [(k, v)] from rfl, lookupCount_cons]
    by_cases h : k = k'
    · subst h
      simp [lookupCount]
    · rw [if_neg h, if_neg (fun hh => h hh.symm)]
      rfl
  | cons p rest ih =>
    obtain ⟨a, b⟩ := p
    by_cases hak : a = k
    · subst hak
      rw [show addCount ((a, b) :: rest) a v = (a, b + v) :: rest by simp [addCount]]
      rw [lookupCount_cons, lookupCount_cons]
      by_cases h : a = k'
      · rw [if_pos h, if_pos h, if_pos (h.symm : k' = a)]
      · rw [if_neg h, if_neg h, if_neg (fun hh : k' = a => h hh.symm)]
        omega
    · rw [show addCount ((a, b) :: rest) k v = (a, b) :: addCount rest k v by
        simp [addCount, hak]]
      rw [lookupCount_cons, lookupCount_cons]
      by_cases h : a = k'
      · rw [if_pos h, if_pos h, if_neg (fun hh : k' = k => hak (h.trans hh))]
        omega
      · rw [if_neg h, if_neg h, ih]

theorem addCount_keys (m : List (Str × Nat)) (k : Str) (v : Nat) :
    (addCount m k v).map Prod.fst =
      if k ∈ m.map Prod.fst then m.map Prod.fst else m.map Prod.fst ++ [k] := by
  induction m with
  | nil => simp [addCount]
  | cons p rest ih =>
    obtain ⟨a, b⟩ := p
    by_cases hak : a = k
    · subst hak
      simp [addCount]
    · have hka : ¬ k = a := fun hh => hak hh.symm
      by_cases hmem : k ∈ rest.map Prod.fst <;>
        simp [addCount, hak, hka, hmem, ih]

theorem addCount_keys_nodup (m : List (Str × Nat)) (k : Str) (v : Nat)
    (h : (m.map Prod.fst).Nodup) : ((addCount m k v).map Prod.fst).Nodup := by
  rw [addCount_keys]
  by_cases hmem : k ∈ m.map Prod.fst
  · simpa [hmem] using h
  · simpa [hmem, List.nodup_append] using h

theorem mergeSummary_keys_nodup (s d : List (Str × Nat))
    (h : (d.map Prod.fst).Nodup) : ((mergeSummary d s).map Prod.fst).Nodup := by
  induction s generalizing d with
  | nil => exact h
  | cons p rest ih => exact ih _ (addCount_keys_nodup _ _ _ h)

theorem lookupCount_eq_zero_of_not_mem (m : List (Str × Nat)) (k : Str)
    (h : k ∉ m.map Prod.fst) : lookupCount m k = 0 := by
  induction m with
  | nil => rfl
  | cons p rest ih =>
    obtain ⟨a, b⟩ := p
    simp only [List.map_cons, List.mem_cons] at h
    push_neg at h
    rw [lookupCount_cons, if_neg (fun hh => h.1 hh.symm)]
    exact ih h.2

theorem lookupCount_mergeSummary (s d : List (Str × Nat)) (k : Str)
    (hs : (s.map Prod.fst).Nodup) :
    lookupCount (mergeSummary d s) k = lookupCount d k + lookupCount s k := by
  induction s generalizing d with
  | nil => simp [mergeSummary, lookupCount]
  | cons p rest ih =>
    obtain ⟨a, b⟩ := p
    simp only [List.map_cons, List.nodup_cons] at hs
    have step : mergeSummary d ((a, b) :: rest) = mergeSummary (addCount d a b) rest := rfl
    rw [step, ih _ hs.2, lookupCount_addCount, lookupCount_cons]
    by_cases h : a = k
    · subst h
      rw [if_pos rfl, if_pos rfl, lookupCount_eq_zero_of_not_mem rest _ hs.1]
      omega
    · rw [if_neg h, if_neg (fun hh => h hh.symm)]
      omega

/-! Helper lemmas about severity counting. -/

theorem countSeverity_append (a b : List Vulnerability) (s : Str) :
    countSeverity (a ++ b) s = countSeverity a s + countSeverity b s := by
  simp [countSeverity, List.filter_append]

theorem eq_nil_of_countSeverity_zero (l : List Vulnerability)
    (h : ∀ s, countSeverity l s = 0) : l = [] := by
  cases l with
  | nil => rfl
  | cons v rest =>
    have hv := h v.severity
    simp [countSeverity, List.filter_cons] at hv

theorem countSeverity_perm {l₁ l₂ : List Vulnerability} (h : l₁.Perm l₂) (s : Str) :
    countSeverity l₁ s = countSeverity l₂ s :=
  (h.filter _).length_eq

/-- Merging one internally consistent partial result preserves the summary
invariant of the destination. -/
theorem mergeStats_summaryInvariant (acc src : ImageStats)
    (hacc : summaryInvariant acc) (hsrc : summaryInvariant src) :
    summaryInvariant (mergeStats acc (some src)) := by
  obtain ⟨haccN, haccL⟩ := hacc
  obtain ⟨hsrcN, hsrcL⟩ := hsrc
  constructor
  · by_cases h : src.vulnSummary.length > 0
    · have hq : (mergeStats acc (some src)).vulnSummary =
          mergeSummary acc.vulnSummary src.vulnSummary := by
        simp [mergeStats, h]
      rw [hq]
      exact mergeSummary_keys_nodup _ _ haccN
    · have hq : (mergeStats acc (some src)).vulnSummary = acc.vulnSummary := by
        simp [mergeStats, h]
      rw [hq]
      exact haccN
  · intro s
    by_cases hsum : src.vulnSummary.length > 0
    · by_cases hvul : src.vulnerabilities.length > 0
      · simp only [mergeStats, if_pos hsum, if_pos hvul]
        rw [lookupCount_mergeSummary _ _ _ hsrcN, countSeverity_append, haccL, hsrcL]
      · have hnil : src.vulnerabilities = [] := by
          cases hv : src.vulnerabilities with
          | nil => rfl
          | cons a l => rw [hv] at hvul; simp at hvul
        simp only [mergeStats, if_pos hsum, if_neg hvul]
        rw [lookupCount_mergeSummary _ _ _ hsrcN, haccL, hsrcL, hnil]
        simp [countSeverity]
    · have hnilsum : src.vulnSummary = [] := by
        cases hv : src.vulnSummary with
        | nil => rfl
        | cons a l => rw [hv] at hsum; simp at hsum
      have hzero : ∀ s, countSeverity src.vulnerabilities s = 0 := by
        intro s
        rw [← hsrcL s, hnilsum]
        rfl
      have hnil : src.vulnerabilities = [] := eq_nil_of_countSeverity_zero _ hzero
      have hvul : ¬ src.vulnerabilities.length > 0 := by simp [hnil]
      simp only [mergeStats, if_neg hsum, if_neg hvul]
      exact haccL s

/-- The aggregation fold preserves the summary invariant when every
successful partial result is internally consistent. -/
theorem foldl_summaryInvariant (l : List RunnerOutcome) (init : ImageStats)
    (hinit : summaryInvariant init)
    (h : ∀ st, RunnerOutcome.runOk (some st) ∈ l → summaryInvariant st) :
    summaryInvariant (l.foldl mergeOutcome init) := by
  induction l generalizing init with
  | nil => exact hinit
  | cons r rest ih =>
    have hrest : ∀ st, RunnerOutcome.runOk (some st) ∈ rest → summaryInvariant st :=
      fun st hm => h st (List.mem_cons_of_mem _ hm)
    cases r with
    | runOk s =>
      cases s with
      | some st =>
        exact ih (mergeStats init (some st))
          (mergeStats_summaryInvariant init st hinit (h st (List.mem_cons_self _ _))) hrest
      | none => exact ih init hinit hrest
    | unavailable => exact ih init hinit hrest
    | runError => exact ih init hinit hrest

/-- C4: when every successful partial result is internally consistent, the
merged vulnSummary counts the final vulnerability list grouped by raw
severity token. -/
theorem analyzeImage_vulnSummary_counts (image : Str) (runners : List RunnerOutcome)
    (stats : ImageStats)
    (hcons : ∀ st, RunnerOutcome.runOk (some st) ∈ runners → summaryInvariant st)
    (h : AnalyzeImage image runners = Except.ok stats) :
    ∀ s, lookupCount stats.vulnSummary s = countSeverity stats.vulnerabilities s := by
  by_cases himg : image = []
  · simp [AnalyzeImage, himg] at h
  · simp only [AnalyzeImage, himg, ite_false, Except.ok.injEq] at h
    have hinit : summaryInvariant (initialStats image) := by
      constructor
      · simp [initialStats]
      · intro s; rfl
    have hinv := foldl_summaryInvariant runners (initialStats image) hinit hcons
    intro s
    have hsum : stats.vulnSummary =
        (runners.foldl mergeOutcome (initialStats image)).vulnSummary := by rw [← h]
    have hvul : stats.vulnerabilities =
        sortVulnerabilities (runners.foldl mergeOutcome (initialStats image)).vulnerabilities := by
      rw [← h]
    rw [hsum, hvul, hinv.2 s]
    exact (countSeverity_perm (List.perm_insertionSort vulnLE _) s).symm

/-- C4 witness: two consistent concrete partial results whose merged summary
counts the merged, re-sorted list. -/
theorem analyzeImage_vulnSummary_counts_witness :
    lookupCount [(str "Low", 1), (str "High", 2)] (str "High") =
      countSeverity [⟨str "CVE-1", str "High", str "liby", str "3"⟩,
                     ⟨str "CVE-5", str "High", str "libw", str "4"⟩,
                     ⟨str "CVE-9", str "Low", str "libz", str "1"⟩] (str "High") := by
  have happ := analyzeImage_vulnSummary_counts (str "debian:12")
    [RunnerOutcome.runOk (some
       { initialStats [] with
         vulnerabilities := [⟨str "CVE-9", str "Low", str "libz", str "1"⟩,
                             ⟨str "CVE-5", str "High", str "libw", str "4"⟩],
         vulnSummary := [(str "Low", 1), (str "High", 1)] }),
     RunnerOutcome.runOk (some
       { initialStats [] with
         vulnerabilities := [⟨str "CVE-1", str "High", str "liby", str "3"⟩],
         vulnSummary := [(str "High", 1)] })]
    { initialStats (str "debian:12") with
      vulnerabilities := [⟨str "CVE-1", str "High", str "liby", str "3"⟩,
                          ⟨str "CVE-5", str "High", str "libw", str "4"⟩,
                          ⟨str "CVE-9", str "Low", str "libz", str "1"⟩],
      vulnSummary := [(str "Low", 1), (str "High", 2)] }
    ?_ (by decide) (str "High")
  · exact happ
  · intro st hst
    simp only [List.mem_cons, List.not_mem_nil, or_false] at hst
    rcases hst with hst | hst
    · injection hst with hs
      injection hs with hs'
      subst hs'
      refine ⟨by decide, ?_⟩
      intro s
      by_cases h1 : str "Low" = s
      · by_cases h2 : str "High" = s
        · exact absurd (h1.trans h2.symm) (by decide)
        · simp [lookupCount_cons, lookupCount_nil, countSeverity, List.filter, initialStats, h1, h2]
      · by_cases h2 : str "High" = s <;>
          simp [lookupCount_cons, lookupCount_nil, countSeverity, List.filter, initialStats, h1, h2]
    · injection hst with hs
      injection hs with hs'
      subst hs'
      refine ⟨by decide, ?_⟩
      intro s
      by_cases h2 : str "High" = s <;>
        simp [lookupCount_cons, lookupCount_nil, countSeverity, List.filter, initialStats, h2]

/-! Helper lemmas about package merging and syft deduplication. -/

theorem foldl_mergeOutcome_packages (l : List RunnerOutcome) (init : ImageStats) :
    (l.foldl mergeOutcome init).packages =
      init.packages ++ (packagesContributions l).flatten := by
  induction l generalizing init with
  | nil => simp [packagesContributions, successStats]
  | cons r rest ih =>
    cases r with
    | runOk s =>
      cases s with
      | some st =>
        by_cases h : st.packages.length > 0
        · have hp : (mergeStats init (some st)).packages = init.packages ++ st.packages := by
            simp [mergeStats, h]
          have hc : packagesContributions (RunnerOutcome.runOk (some st) :: rest) =
              st.packages :: packagesContributions rest := by
            simp [packagesContributions, successStats, h]
          simp only [List.foldl_cons, mergeOutcome, ih, hp, hc, List.flatten_cons,
            List.append_assoc]
        · have hp : (mergeStats init (some st)).packages = init.packages := by
            simp [mergeStats, h]
          have hc : packagesContributions (RunnerOutcome.runOk (some st) :: rest) =
              packagesContributions rest := by
            simp [packagesContributions, successStats, h]
          simp only [List.foldl_cons, mergeOutcome, ih, hp, hc]
      | none =>
        have hc : packagesContributions (RunnerOutcome.runOk none :: rest) =
            packagesContributions rest := by
          simp [packagesContributions, successStats]
        simp only [List.foldl_cons, mergeOutcome, mergeStats, ih, hc]
    | unavailable =>
      have hc : packagesContributions (RunnerOutcome.unavailable :: rest) =
          packagesContributions rest := by
        simp [packagesContributions, successStats]
      simp only [List.foldl_cons, mergeOutcome, ih, hc]
    | runError =>
      have hc : packagesContributions (RunnerOutcome.runError :: rest) =
          packagesContributions rest := by
        simp [packagesContributions, successStats]
      simp only [List.foldl_cons, mergeOutcome, ih, hc]

/-- The syft dedup loop keeps exactly the packages whose keys it has
recorded, with no key recorded twice. -/
theorem dedup_foldl_invariant (arts : List SyftArtifact) (seen : List Str)
    (pkgs : List PackageSummary) (hseen : seen = pkgs.map pkgKey) (hnodup : seen.Nodup) :
    (arts.foldl dedupStep (seen, pkgs)).1 = (arts.foldl dedupStep (seen, pkgs)).2.map pkgKey ∧
      (arts.foldl dedupStep (seen, pkgs)).1.Nodup := by
  induction arts generalizing seen pkgs with
  | nil => exact ⟨hseen, hnodup⟩
  | cons a rest ih =>
    by_cases h : (a.name ++ str "@" ++ a.version) ∈ seen
    · have hstep : dedupStep (seen, pkgs) a = (seen, pkgs) := by
        simp only [dedupStep]
        rw [if_pos h]
      rw [List.foldl_cons, hstep]
      exact ih seen pkgs hseen hnodup
    · have hstep : dedupStep (seen, pkgs) a =
          (seen ++ [a.name ++ str "@" ++ a.version],
           pkgs ++ [({ name := a.name, version := a.version } : PackageSummary)]) := by
        simp only [dedupStep]
        rw [if_neg h]
      have hseen' : seen ++ [a.name ++ str "@" ++ a.version] =
          (pkgs ++ [({ name := a.name, version := a.version } : PackageSummary)]).map pkgKey := by
        rw [List.map_append, ← hseen]
        rfl
      have hnodup' : (seen ++ [a.name ++ str "@" ++ a.version]).Nodup := by
        simp only [List.nodup_append, List.nodup_cons, List.not_mem_nil, not_false_iff,
          List.nodup_nil, and_true, true_and]
        refine ⟨hnodup, ?_⟩
        intro x hx hmem
        simp only [List.mem_singleton] at hmem
        subst hmem
        exact h hx
      rw [List.foldl_cons, hstep]
      exact ih _ _ hseen' hnodup'

/-- Deduplicated syft packages have pairwise distinct keys. -/
theorem dedupArtifacts_keys_nodup (arts : List SyftArtifact) :
    ((dedupArtifacts arts).map pkgKey).Nodup := by
  have h := dedup_foldl_invariant arts [] [] rfl (by simp)
  unfold dedupArtifacts
  rw [← h.1]
  exact h.2

/-- C3 (counterexample): two successful partial results each contributing a
package leave the merged packages list unsorted (and in general
undeduplicated), refuting the claim for arbitrary partial-result sets. -/
theorem analyzeImage_packages_unsorted_counterexample :
    AnalyzeImage (str "img")
        [RunnerOutcome.runOk (some
           { initialStats [] with packages := [⟨str "zlib", str "1"⟩] }),
         RunnerOutcome.runOk (some
           { initialStats [] with packages := [⟨str "abc", str "1"⟩] })] =
      Except.ok
        { initialStats (str "img") with
          packages := [⟨str "zlib", str "1"⟩, ⟨str "abc", str "1"⟩] } ∧
    ¬ ([(⟨str "zlib", str "1"⟩ : PackageSummary), ⟨str "abc", str "1"⟩].Pairwise
        (fun a b => a.name ≤ b.name)) := by
  constructor
  · decide
  · decide

/-- C3 (amended): each contribution produced by parseSyftOutput is sorted by
name and free of duplicate name-version pairs; AnalyzeImage concatenates
contributions without re-sorting or deduplicating, so the merged packages
list is sorted and duplicate-free whenever at most one successful partial
result supplies a non-empty packages list. -/
theorem packages_sorted_single_contributor :
    (∀ doc stats, parseSyftOutput (some doc) = Except.ok stats →
      stats.packages.Pairwise (fun a b => a.name ≤ b.name) ∧
      stats.packages.Pairwise (fun a b => ¬(a.name = b.name ∧ a.version = b.version))) ∧
    (∀ image runners stats, AnalyzeImage image runners = Except.ok stats →
      stats.packages = (packagesContributions runners).flatten ∧
      (packagesContributions runners = [] → stats.packages = []) ∧
      (∀ l, packagesContributions runners = [l] →
        l.Pairwise (fun a b => a.name ≤ b.name) →
        l.Pairwise (fun a b => ¬(a.name = b.name ∧ a.version = b.version)) →
        stats.packages.Pairwise (fun a b => a.name ≤ b.name) ∧
        stats.packages.Pairwise (fun a b => ¬(a.name = b.name ∧ a.version = b.version)))) := by
  constructor
  · intro doc stats h
    have hp : stats.packages = List.insertionSort pkgLE (dedupArtifacts doc.artifacts) := by
      simp only [parseSyftOutput, Except.ok.injEq] at h
      rw [← h]
    constructor
    · rw [hp]
      exact List.sorted_insertionSort pkgLE _
    · have hnodup : ((List.insertionSort pkgLE (dedupArtifacts doc.artifacts)).map
          pkgKey).Nodup :=
        (((List.perm_insertionSort pkgLE (dedupArtifacts doc.artifacts)).map
            pkgKey).nodup_iff).mpr (dedupArtifacts_keys_nodup doc.artifacts)
      rw [hp]
      have hpw := (List.pairwise_map (f := pkgKey)).mp hnodup
      exact hpw.imp (fun hk hnv => hk (by rw [pkgKey, pkgKey, hnv.1, hnv.2]))
  · intro image runners stats h
    by_cases himg : image = []
    · simp [AnalyzeImage, himg] at h
    · simp only [AnalyzeImage, himg, ite_false, Except.ok.injEq] at h
      have hpkg : stats.packages = (packagesContributions runners).flatten := by
        rw [← h]
        simpa using foldl_mergeOutcome_packages runners (initialStats image)
      refine ⟨hpkg, ?_, ?_⟩
      · intro hc
        rw [hpkg, hc]
        rfl
      · intro l hc hsorted hdistinct
        rw [hpkg, hc, List.flatten_cons, List.flatten_nil, List.append_nil]
        exact ⟨hsorted, hdistinct⟩

/-- C3 witness: a concrete syft document with a duplicate, unsorted artifact
list, and a concrete single-contributor aggregation. -/
theorem packages_sorted_single_contributor_witness :
    ([(⟨str "abc", str "2"⟩ : PackageSummary), ⟨str "zlib", str "1"⟩].Pairwise
      (fun a b => a.name ≤ b.name)) ∧
    ([(⟨str "abc", str "2"⟩ : PackageSummary), ⟨str "zlib", str "1"⟩].Pairwise
      (fun a b => ¬(a.name = b.name ∧ a.version = b.version))) := by
  have h := packages_sorted_single_contributor.2 (str "img")
    [RunnerOutcome.runOk (some
      { initialStats [] with packages := [⟨str "abc", str "2"⟩, ⟨str "zlib", str "1"⟩] })]
    { initialStats (str "img") with
      packages := [⟨str "abc", str "2"⟩, ⟨str "zlib", str "1"⟩] }
    (by decide)
  exact h.2.2 [⟨str "abc", str "2"⟩, ⟨str "zlib", str "1"⟩] (by decide) (by decide) (by decide)

/-! Helper lemma for the Annotation Resolver model. -/

theorem buildItemsFromQueues_get? (kind : InstrKind) (pairs : List (Str × Str))
    (q : AnnotationQueues) (m : Nat) :
    (buildItemsFromQueues kind pairs q).get? m = (pairs.get? m).map (buildItem kind q m) := by
  simp only [buildItemsFromQueues, List.get?_eq_getElem?, List.getElem?_map,
    List.getElem?_enum, Option.map_map]
  cases pairs[m]? with
  | none => rfl
  | some p => rfl

/-- C5: description fragments pair with expanded items strictly by position
(the item at position m consumes the fragment at position m, with no
name-based matching); concretely, two description lines above a two-variable
ENV bind first to the first variable and second to the second. -/
theorem description_positional_pairing :
    (∀ kind pairs q m item,
      (buildItemsFromQueues kind pairs q).get? m = some item →
      item.description = (q.descriptions.get? m).getD []) ∧
    resolveInstructions
        [{ kind := InstrKind.ENV,
           rawArgs := [(str "A", str "1"), (str "B", str "2")],
           precedingComments := [str "# @description: first", str "# @description: second"] }] =
      [{ name := str "A", type := InstrKind.ENV, description := str "first",
         value := str "1", required := false },
       { name := str "B", type := InstrKind.ENV, description := str "second",
         value := str "2", required := false }] := by
  constructor
  · intro kind pairs q m item h
    rw [buildItemsFromQueues_get?] at h
    cases hp : pairs.get? m with
    | none => rw [hp] at h; simp at h
    | some p =>
      rw [hp] at h
      simp only [Option.map_some', Option.some.injEq] at h
      rw [← h]
      rfl
  · decide

/-- C5 witness: the second expanded ENV variable consumes the second queued
description fragment. -/
theorem description_positional_pairing_witness :
    ({ name := str "B", type := InstrKind.ENV, description := str "second",
       value := str "2", required := false } : DocItem).description =
      ((extractQueues [str "# @description: first",
          str "# @description: second"]).descriptions.get? 1).getD [] :=
  description_positional_pairing.1 InstrKind.ENV [(str "A", str "1"), (str "B", str "2")]
    (extractQueues [str "# @description: first", str "# @description: second"]) 1
    { name := str "B", type := InstrKind.ENV, description := str "second",
      value := str "2", required := false }
    (by decide)

/-- C6: queue and item counts never have to match: exactly one item per raw
pair is produced, fragments beyond the number of items are discarded
(truncating every queue to the item count changes nothing), and items beyond
the queue lengths receive the instruction-derived name and value, an empty
description and a false required flag. -/
theorem annotation_mismatch_tolerated :
    (∀ kind pairs q, (buildItemsFromQueues kind pairs q).length = pairs.length) ∧
    (∀ kind pairs q,
      buildItemsFromQueues kind pairs q =
        buildItemsFromQueues kind pairs (truncateQueues q pairs.length)) ∧
    (∀ kind pairs q m p item, pairs.get? m = some p →
      (buildItemsFromQueues kind pairs q).get? m = some item →
      (q.names.length ≤ m → item.name = p.1) ∧
      (q.descriptions.length ≤ m → item.description = []) ∧
      (q.defaults.length ≤ m → item.value = p.2) ∧
      (q.requireds.length ≤ m → item.required = false)) := by
  refine ⟨?_, ?_, ?_⟩
  · intro kind pairs q
    simp [buildItemsFromQueues]
  · intro kind pairs q
    apply List.ext_get?
    intro m
    rw [buildItemsFromQueues_get?, buildItemsFromQueues_get?]
    cases hp : pairs.get? m with
    | none => rfl
    | some p =>
      have hm : m < pairs.length := by
        by_contra hm
        rw [List.get?_eq_getElem?, List.getElem?_eq_none (Nat.le_of_not_lt hm)] at hp
        exact Option.noConfusion hp
      simp only [Option.map_some', Option.some.injEq]
      unfold buildItem truncateQueues
      simp only [List.get?_eq_getElem?, List.getElem?_take, hm, if_pos]
  · intro kind pairs q m p item hp hitem
    rw [buildItemsFromQueues_get?, hp] at hitem
    simp only [Option.map_some', Option.some.injEq] at hitem
    subst hitem
    refine ⟨?_, ?_, ?_, ?_⟩ <;> intro hlen <;>
      simp [buildItem, List.get?_eq_getElem?, List.getElem?_eq_none hlen, str]

/-- C6 witness: three description fragments over a one-pair ARG use only the
first, and one description fragment over a three-pair ENV leaves the second
and third items with empty metadata. -/
theorem annotation_mismatch_tolerated_witness :
    (buildItemsFromQueues InstrKind.ARG [(str "ONLY_ONE", str "value")]
        (extractQueues [str "# @description: First desc", str "# @description: Second desc",
          str "# @description: Third desc"]) =
      buildItemsFromQueues InstrKind.ARG [(str "ONLY_ONE", str "value")]
        (truncateQueues
          (extractQueues [str "# @description: First desc", str "# @description: Second desc",
            str "# @description: Third desc"]) 1)) ∧
    ({ name := str "C", type := InstrKind.ENV, description := [],
       value := str "3", required := false } : DocItem).description = [] :=
  ⟨annotation_mismatch_tolerated.2.1 InstrKind.ARG [(str "ONLY_ONE", str "value")]
     (extractQueues [str "# @description: First desc", str "# @description: Second desc",
       str "# @description: Third desc"]),
   (annotation_mismatch_tolerated.2.2 InstrKind.ENV
     [(str "A", str "1"), (str "B", str "2"), (str "C", str "3")]
     (extractQueues [str "# @description: Only first var described"]) 2
     (str "C", str "3")
     { name := str "C", type := InstrKind.ENV, description := [],
       value := str "3", required := false }
     (by decide) (by decide)).2.1 (by decide)⟩

/-- C7: an explicit default fragment always becomes the item value, even
when the instruction carries its own literal default. -/
theorem default_fragment_overrides_value (kind : InstrKind) (pairs : List (Str × Str))
    (q : AnnotationQueues) (m : Nat) (p : Str × Str) (item : DocItem) (v : Str)
    (hp : pairs.get? m = some p)
    (hitem : (buildItemsFromQueues kind pairs q).get? m = some item)
    (hv : q.defaults.get? m = some v) :
    item.value = v := by
  rw [buildItemsFromQueues_get?, hp] at hitem
  simp only [Option.map_some', Option.some.injEq] at hitem
  subst hitem
  rw [List.get?_eq_getElem?] at hv
  simp [buildItem, hv]

/-- C7 witness: a default fragment of custom_value replaces the literal
original_value of an ARG instruction. -/
theorem default_fragment_overrides_value_witness :
    ({ name := str "MY_VAR", type := InstrKind.ARG,
       description := str "Overridden default", value := str "custom_value",
       required := false } : DocItem).value = str "custom_value" :=
  default_fragment_overrides_value InstrKind.ARG [(str "MY_VAR", str "original_value")]
    (extractQueues [str "# @description: Overridden default", str "# @default: custom_value"]) 0
    (str "MY_VAR", str "original_value")
    { name := str "MY_VAR", type := InstrKind.ARG,
      description := str "Overridden default", value := str "custom_value",
      required := false }
    (str "custom_value") (by decide) (by decide) (by decide)

end DockDocs
